import Mathlib

/-!
Verification of the PPO / DQN agent implementation (`agent.py`) against its
natural-language specification.  The numeric computations of the source are
embedded over `ℚ`; neural networks, optimizers, the vectorized environment and
the random-number generator are external collaborators of the source and are
modelled as explicit function parameters (oracles).
-/

namespace Agent

/-- Embedding of `tf.clip_by_value(x, lo, hi)`: clamp `x` into `[lo, hi]`. -/
def tfClipByValue (x lo hi : ℚ) : ℚ := min (max x lo) hi

/-- Embedding of `tf.reduce_mean` on a 1-d tensor: sum divided by length. -/
def tfMean (l : List ℚ) : ℚ := l.sum / (l.length : ℚ)

/-- Pointwise combination of three lists, truncating at the shortest. -/
def zipWith3 (f : α → β → γ → δ) : List α → List β → List γ → List δ
  | a :: as, b :: bs, c :: cs => f a b c :: zipWith3 f as bs cs
  | _, _, _ => []

/-- Embedding of the policy-loss computation of `PPO_Agent.train_step_ppo`
(lines 205-210 of `agent.py`): `ratio = new_probs / probs`,
`clip = tf.clip_by_value(ratio, 1-ε, 1+ε) * adv`,
`loss_clip = -tf.reduce_mean(tf.minimum(ratio * adv, clip))`.
The elementwise tensor ops become `List.zipWith` over `ℚ`. -/
def trainLossClip (newProbs probs adv : List ℚ) (eps : ℚ) : ℚ :=
  let ratios := List.zipWith (fun np p => np / p) newProbs probs
  let clip := List.zipWith (fun r a => tfClipByValue r (1 - eps) (1 + eps) * a) ratios adv
  let lossClip := List.zipWith min (List.zipWith (fun r a => r * a) ratios adv) clip
  Neg.neg (tfMean lossClip)

/-- Embedding of the value-loss computation of `PPO_Agent.train_step_ppo`
(line 213): `loss_value = tf.reduce_mean(tf.square(returns - new_value))`. -/
def trainLossValue (returns newValue : List ℚ) : ℚ :=
  tfMean (List.zipWith (fun ret v => (ret - v) ^ 2) returns newValue)

/-- The clipped surrogate objective exactly as the specification words it:
`L_clip = −mean(min(r·advantage, clip(r, 1−ε, 1+ε)·advantage))` with
`r = new_probability / old_probability` elementwise. -/
def lossClipSpec (newProbs oldProbs adv : List ℚ) (eps : ℚ) : ℚ :=
  -(tfMean (zipWith3
      (fun np p a => min ((np / p) * a) (tfClipByValue (np / p) (1 - eps) (1 + eps) * a))
      newProbs oldProbs adv))

/-- Mean squared error between predicted values and stored returns, as the
specification words the value loss. -/
def mseSpec (predicted target : List ℚ) : ℚ :=
  tfMean (List.zipWith (fun v r => (v - r) ^ 2) predicted target)

theorem lossClip_zip_eq (eps : ℚ) :
    ∀ (newProbs probs adv : List ℚ),
      List.zipWith min
        (List.zipWith (fun r a => r * a) (List.zipWith (fun np p => np / p) newProbs probs) adv)
        (List.zipWith (fun r a => tfClipByValue r (1 - eps) (1 + eps) * a)
          (List.zipWith (fun np p => np / p) newProbs probs) adv) =
      zipWith3
        (fun np p a => min ((np / p) * a) (tfClipByValue (np / p) (1 - eps) (1 + eps) * a))
        newProbs probs adv := by
  intro newProbs
  induction newProbs with
  | nil => intro probs adv; cases probs <;> cases adv <;> rfl
  | cons np nps ih =>
    intro probs adv
    cases probs with
    | nil => cases adv <;> rfl
    | cons p ps =>
      cases adv with
      | nil => rfl
      | cons a as => simpa [zipWith3] using ih ps as

theorem square_swap_zip :
    ∀ (xs ys : List ℚ),
      List.zipWith (fun ret v => (ret - v) ^ 2) xs ys =
      List.zipWith (fun v r => (v - r) ^ 2) ys xs := by
  intro xs
  induction xs with
  | nil => intro ys; cases ys <;> rfl
  | cons x xs ih =>
    intro ys
    cases ys with
    | nil => rfl
    | cons y ys => simp [ih ys]; ring

/-- C5: the policy loss computed by `train_step_ppo` equals the clipped
surrogate objective `L_clip = -mean(min(r * advantage, clip(r, 1-ε, 1+ε) * advantage))`
with `r = new_probability / old_probability` elementwise, and the value loss
equals the mean squared error between the critic's predicted value and the
stored return, for every minibatch with all old-probabilities nonzero. -/
theorem train_step_losses_match_spec
    (newProbs probs adv returns newValue : List ℚ) (eps : ℚ)
    (hnz : ∀ p ∈ probs, p ≠ 0) :
    trainLossClip newProbs probs adv eps = lossClipSpec newProbs probs adv eps ∧
    trainLossValue returns newValue = mseSpec newValue returns := by
  refine ⟨?_, ?_⟩
  · show Neg.neg (tfMean _) = _
    unfold lossClipSpec
    rw [lossClip_zip_eq]
  · unfold trainLossValue mseSpec
    rw [square_swap_zip]

theorem train_step_losses_match_spec_witness :
    (∀ p ∈ [(1:ℚ)/2], p ≠ 0) ∧
    (trainLossClip [1/3] [1/2] [2] (1/10) = lossClipSpec [1/3] [1/2] [2] (1/10) ∧
     trainLossValue [3] [1] = mseSpec [1] [3]) :=
  ⟨by norm_num, train_step_losses_match_spec [1/3] [1/2] [2] [3] [1] (1/10) (by norm_num)⟩

theorem lossClip_inner_ratio_one (eps : ℚ) (heps : 0 ≤ eps) :
    ∀ (probs adv : List ℚ), (∀ p ∈ probs, p ≠ 0) → probs.length = adv.length →
      List.zipWith min
        (List.zipWith (fun r a => r * a) (List.zipWith (fun np p => np / p) probs probs) adv)
        (List.zipWith (fun r a => tfClipByValue r (1 - eps) (1 + eps) * a)
          (List.zipWith (fun np p => np / p) probs probs) adv) = adv := by
  intro probs
  induction probs with
  | nil =>
    intro adv _ hlen
    cases adv with
    | nil => rfl
    | cons a as => simp at hlen
  | cons p ps ih =>
    intro adv hnz hlen
    cases adv with
    | nil => simp at hlen
    | cons a as =>
      have hp : p ≠ 0 := hnz p (List.mem_cons_self p ps)
      have hclip : tfClipByValue 1 (1 - eps) (1 + eps) = 1 := by
        unfold tfClipByValue
        rw [max_eq_left (by linarith), min_eq_left (by linarith)]
      have htail := ih as (fun q hq => hnz q (List.mem_cons_of_mem p hq))
        (by simpa using hlen)
      simp only [List.zipWith_cons_cons, div_self hp, hclip, one_mul, min_self]
      rw [htail]

/-- C6: when the recomputed new-policy probability equals the stored old
probability for every sample (elementwise ratio exactly 1) and the clip
parameter ε is nonnegative, the clipped surrogate loss of `train_step_ppo`
equals `-mean(advantage)`, independent of ε. -/
theorem loss_clip_ratio_one (newProbs probs adv : List ℚ) (eps : ℚ)
    (heq : newProbs = probs) (hnz : ∀ p ∈ probs, p ≠ 0) (heps : 0 ≤ eps)
    (hlen : probs.length = adv.length) :
    trainLossClip newProbs probs adv eps = -(tfMean adv) := by
  subst heq
  show Neg.neg (tfMean _) = _
  rw [lossClip_inner_ratio_one eps heps _ adv hnz hlen]

theorem loss_clip_ratio_one_witness :
    ([(1:ℚ)/2, 1/3] = [(1:ℚ)/2, 1/3] ∧ (∀ p ∈ [(1:ℚ)/2, 1/3], p ≠ 0) ∧
      (0:ℚ) ≤ 1 ∧ ([(1:ℚ)/2, 1/3].length = [(2:ℚ), 5].length)) ∧
    trainLossClip [(1:ℚ)/2, 1/3] [(1:ℚ)/2, 1/3] [2, 5] 1 = -(tfMean [2, 5]) :=
  ⟨⟨rfl, by norm_num, by norm_num, rfl⟩,
    loss_clip_ratio_one [(1:ℚ)/2, 1/3] [(1:ℚ)/2, 1/3] [2, 5] 1 rfl (by norm_num)
      (by norm_num) rfl⟩

/-- Default trajectory row for `List.getD` reads: `(reward, value, terminated, truncated)`. -/
def dRow : ℚ × ℚ × Bool × Bool := (0, 0, false, false)

/-- Reward component of a trajectory row. -/
def rowReward (row : ℚ × ℚ × Bool × Bool) : ℚ := row.1

/-- Value component of a trajectory row. -/
def rowValue (row : ℚ × ℚ × Bool × Bool) : ℚ := row.2.1

/-- Continuation factor of a trajectory row: `0` when the episode terminated or
was truncated at this timestep (both end the bootstrap chain), else `1`. -/
def rowCont (row : ℚ × ℚ × Bool × Bool) : ℚ := if row.2.2.1 || row.2.2.2 then 0 else 1

/-- Modelled from the spec: `utils.calc_adv_list`, imported by `agent.py`
(line 259), is not part of the repository snapshot.  Per spec §4.2 it computes
the GAE advantages of one environment column, walking timesteps from last to
first: `delta_t = reward_t + gamma * next_value * continue_t - value_t` and
`advantage_t = delta_t + gamma * lambda * continue_t * advantage_{t+1}`, where
`next_value` is the critic's estimate `nextVal` of the post-rollout observation
at the last timestep and `value_{t+1}` earlier, and the chain is seeded with
advantage `0` past the end.  A row is `(reward, value, terminated, truncated)`;
the backward walk is expressed as structural recursion computing the suffix
first. -/
def calcAdvList : List (ℚ × ℚ × Bool × Bool) → ℚ → ℚ → ℚ → List ℚ
  | [], _, _, _ => []
  | row :: rest, gamma, lmbda, nextVal =>
    let tail := calcAdvList rest gamma lmbda nextVal
    let nv := match rest with | [] => nextVal | r :: _ => rowValue r
    let delta := rowReward row + gamma * nv * rowCont row - rowValue row
    (delta + gamma * lmbda * rowCont row * tail.headD 0) :: tail

theorem calcAdvList_length (gamma lmbda nextVal : ℚ) :
    ∀ rows : List (ℚ × ℚ × Bool × Bool),
      (calcAdvList rows gamma lmbda nextVal).length = rows.length := by
  intro rows
  induction rows with
  | nil => rfl
  | cons row rest ih => simp [calcAdvList, ih]

theorem calcAdvList_getD_succ (gamma lmbda nextVal : ℚ) (row : ℚ × ℚ × Bool × Bool)
    (rest : List (ℚ × ℚ × Bool × Bool)) (t : Nat) :
    (calcAdvList (row :: rest) gamma lmbda nextVal).getD (t + 1) 0 =
      (calcAdvList rest gamma lmbda nextVal).getD t 0 := by
  simp [calcAdvList]

/-- C3: the advantages satisfy the GAE recurrence
`delta_t = reward_t + gamma * next_value * continue_t - value_t`,
`advantage_t = delta_t + gamma * lambda * continue_t * advantage_{t+1}`,
with `continue_t = 0` exactly when the episode terminated or was truncated at
`t`, and `next_value` equal to the critic's post-rollout estimate at the last
timestep and to `value_{t+1}` earlier. -/
theorem calc_adv_recurrence (rows : List (ℚ × ℚ × Bool × Bool))
    (gamma lmbda nextVal : ℚ) (t : Nat) (h : t < rows.length) :
    (calcAdvList rows gamma lmbda nextVal).getD t 0 =
      (rowReward (rows.getD t dRow)
        + gamma * (if t + 1 = rows.length then nextVal
            else rowValue (rows.getD (t + 1) dRow)) * rowCont (rows.getD t dRow)
        - rowValue (rows.getD t dRow))
      + gamma * lmbda * rowCont (rows.getD t dRow) *
          (if t + 1 = rows.length then 0
            else (calcAdvList rows gamma lmbda nextVal).getD (t + 1) 0) := by
  induction rows generalizing t with
  | nil => simp at h
  | cons row rest ih =>
    cases t with
    | zero =>
      cases rest with
      | nil => simp [calcAdvList]
      | cons r rest2 =>
        have hne : ¬(0 + 1 = (row :: r :: rest2).length) := by simp
        rw [if_neg hne, if_neg hne]
        show (calcAdvList (row :: r :: rest2) gamma lmbda nextVal).getD 0 0 = _
        simp only [calcAdvList, List.getD_cons_zero, List.getD_cons_succ]
        rfl
    | succ t2 =>
      have h2 : t2 < rest.length := by simpa using h
      have hlen : (t2 + 1 + 1 = (row :: rest).length) = (t2 + 1 = rest.length) := by
        simp
      rw [calcAdvList_getD_succ, ih t2 h2]
      simp only [List.getD_cons_succ, hlen, calcAdvList_getD_succ]

theorem calc_adv_recurrence_witness :
    ((0 : Nat) < ([((2 : ℚ), (5 : ℚ), false, false)]).length) ∧
    (calcAdvList [((2 : ℚ), (5 : ℚ), false, false)] (1/2) (1/3) 4).getD 0 0 =
      (rowReward (([((2 : ℚ), (5 : ℚ), false, false)]).getD 0 dRow)
        + (1/2) * (if 0 + 1 = ([((2 : ℚ), (5 : ℚ), false, false)]).length then 4
            else rowValue (([((2 : ℚ), (5 : ℚ), false, false)]).getD (0 + 1) dRow))
          * rowCont (([((2 : ℚ), (5 : ℚ), false, false)]).getD 0 dRow)
        - rowValue (([((2 : ℚ), (5 : ℚ), false, false)]).getD 0 dRow))
      + (1/2) * (1/3) * rowCont (([((2 : ℚ), (5 : ℚ), false, false)]).getD 0 dRow) *
          (if 0 + 1 = ([((2 : ℚ), (5 : ℚ), false, false)]).length then 0
            else (calcAdvList [((2 : ℚ), (5 : ℚ), false, false)] (1/2) (1/3) 4).getD (0 + 1) 0) :=
  ⟨by decide, calc_adv_recurrence [((2 : ℚ), (5 : ℚ), false, false)] (1/2) (1/3) 4 0 (by decide)⟩

/-- Default reward row for `List.getD` reads: `(reward, terminated, truncated)`. -/
def dRet : ℚ × Bool × Bool := (0, false, false)

/-- Continuation factor of a `(reward, terminated, truncated)` row. -/
def retCont (row : ℚ × Bool × Bool) : ℚ := if row.2.1 || row.2.2 then 0 else 1

/-- Modelled from the spec: `utils.calc_returns`, imported by `agent.py`
(line 262), is not part of the repository snapshot.  Per spec §4.2 it computes
discounted returns for one environment column:
`return_t = reward_t + gamma * continue_t * return_{t+1}`, same continuation
rule as the advantage recurrence, bootstrapped from `0` at trajectory end. -/
def calcReturns : List (ℚ × Bool × Bool) → ℚ → List ℚ
  | [], _ => []
  | row :: rest, gamma =>
    let tail := calcReturns rest gamma
    (row.1 + gamma * retCont row * tail.headD 0) :: tail

theorem calcReturns_getD_succ (gamma : ℚ) (row : ℚ × Bool × Bool)
    (rest : List (ℚ × Bool × Bool)) (t : Nat) :
    (calcReturns (row :: rest) gamma).getD (t + 1) 0 =
      (calcReturns rest gamma).getD t 0 := by
  simp [calcReturns]

/-- C4: the computed return satisfies
`return_t = reward_t + gamma * continue_t * return_{t+1}` with the same
continuation rule as the advantage recurrence and bootstrap `0` at trajectory
end; and for rewards `[1, 2, 3]`, `gamma = 9/10`, no terminations or
truncations, the returns are `[5.23, 4.7, 3]`. -/
theorem calc_returns_recurrence (rows : List (ℚ × Bool × Bool)) (gamma : ℚ)
    (t : Nat) (h : t < rows.length) :
    ((calcReturns rows gamma).getD t 0 =
      (rows.getD t dRet).1 + gamma * retCont (rows.getD t dRet) *
        (if t + 1 = rows.length then 0 else (calcReturns rows gamma).getD (t + 1) 0)) ∧
    calcReturns [(1, false, false), (2, false, false), (3, false, false)] (9/10) =
      [523/100, 47/10, 3] := by
  refine ⟨?_, by norm_num [calcReturns, retCont]⟩
  induction rows generalizing t with
  | nil => simp at h
  | cons row rest ih =>
    cases t with
    | zero =>
      cases rest with
      | nil => simp [calcReturns]
      | cons r rest2 =>
        have hne : ¬(0 + 1 = (row :: r :: rest2).length) := by simp
        rw [if_neg hne]
        show (calcReturns (row :: r :: rest2) gamma).getD 0 0 = _
        simp only [calcReturns, List.getD_cons_zero, List.getD_cons_succ]
        rfl
    | succ t2 =>
      have h2 : t2 < rest.length := by simpa using h
      have hlen : (t2 + 1 + 1 = (row :: rest).length) = (t2 + 1 = rest.length) := by
        simp
      rw [calcReturns_getD_succ, ih t2 h2]
      simp only [List.getD_cons_succ, hlen, calcReturns_getD_succ]

theorem calc_returns_recurrence_witness :
    ((0 : Nat) < ([((7 : ℚ), false, false)]).length) ∧
    (((calcReturns [((7 : ℚ), false, false)] (1/2)).getD 0 0 =
      (([((7 : ℚ), false, false)]).getD 0 dRet).1
        + (1/2) * retCont (([((7 : ℚ), false, false)]).getD 0 dRet) *
          (if 0 + 1 = ([((7 : ℚ), false, false)]).length then 0
            else (calcReturns [((7 : ℚ), false, false)] (1/2)).getD (0 + 1) 0)) ∧
      calcReturns [(1, false, false), (2, false, false), (3, false, false)] (9/10) =
        [523/100, 47/10, 3]) :=
  ⟨by decide, calc_returns_recurrence [((7 : ℚ), false, false)] (1/2) 0 (by decide)⟩

/-- Embedding of `PPO_Agent.get_action` (lines 139-148 of `agent.py`).  The
actor's forward pass on the observation batch yields the categorical
distribution `dist` (softmax output, one probability per discrete action);
drawing from the distribution is the external random collaborator `sample`.
When an action is supplied the code takes the `else` branch, looking up the
probability of that action; otherwise it draws one action and looks up its
probability. -/
def get_action (dist : List ℚ) (sample : List ℚ → Nat) (action : Option Nat) : Nat × ℚ :=
  match action with
  | some a => (a, dist.getD a 0)
  | none => ((sample dist), dist.getD (sample dist) 0)

/-- C8: with an explicitly supplied action, `get_action` returns that same
action together with the probability mass the current distribution assigns to
it, and the result does not depend on the sampler (no sample is drawn); with
no action supplied it returns the sampled action with its current-policy
probability. -/
theorem get_action_spec (dist : List ℚ) (sample : List ℚ → Nat) (a : Nat) :
    get_action dist sample (some a) = (a, dist.getD a 0) ∧
    (∀ other : List ℚ → Nat,
      get_action dist other (some a) = get_action dist sample (some a)) ∧
    get_action dist sample none = (sample dist, dist.getD (sample dist) 0) :=
  ⟨rfl, fun _ => rfl, rfl⟩

/-- Embedding of `np.random.randint(n)` driven by a uniform draw
`u ∈ [0, 1)`: the sampled integer is `⌊n * u⌋`. -/
def randint (n : Nat) (u : ℚ) : Nat := Int.toNat ⌊(n : ℚ) * u⌋

/-- First index of a maximal entry, as `np.argmax` over a Q-value vector. -/
def argmaxIdx : List ℚ → Nat
  | [] => 0
  | x :: xs => if xs.foldl max x ≤ x then 0 else argmaxIdx xs + 1

/-- Embedding of `DQN_Agent.epsilon_greedy_policy` (lines 56-62): when the
uniform draw `d` falls below `epsilon` the code returns
`np.random.randint(3)`; otherwise it returns the argmax of the model's
Q-values (the network forward pass being the external collaborator `qvals`,
a vector with `nOutputs` entries).  `nOutputs` is carried as a parameter to
express that the exploration branch ignores the configured output count. -/
def epsilon_greedy_policy (nOutputs : Nat) (qvals : List ℚ) (epsilon d u : ℚ) : Nat :=
  if d < epsilon then randint 3 u else argmaxIdx qvals

/-- C10: whenever the exploration branch is taken (`d < epsilon`), the
returned action is `⌊3u⌋`, lies in `{0, 1, 2}`, is the same for every
configured `nOutputs` and Q-value vector, and is uniform over `{0, 1, 2}`:
for each `k < 3` it equals `k` exactly when the uniform draw `u` falls in
`[k/3, (k+1)/3)`, an interval of length `1/3`. -/
theorem epsilon_greedy_explore (nOutputs : Nat) (qvals : List ℚ) (epsilon d u : ℚ)
    (hd : d < epsilon) (hu0 : 0 ≤ u) (hu1 : u < 1) :
    epsilon_greedy_policy nOutputs qvals epsilon d u = randint 3 u ∧
    randint 3 u < 3 ∧
    (∀ (n2 : Nat) (q2 : List ℚ),
      epsilon_greedy_policy n2 q2 epsilon d u =
        epsilon_greedy_policy nOutputs qvals epsilon d u) ∧
    (∀ k : Nat, k < 3 →
      (epsilon_greedy_policy nOutputs qvals epsilon d u = k ↔
        (k : ℚ) / 3 ≤ u ∧ u < ((k : ℚ) + 1) / 3)) := by
  have hcast : ((3 : Nat) : ℚ) = (3 : ℚ) := by norm_num
  have hpos : (0 : ℚ) ≤ (3 : ℚ) * u := by positivity
  have h0 : 0 ≤ ⌊(3 : ℚ) * u⌋ := Int.floor_nonneg.mpr hpos
  have hlt : ⌊(3 : ℚ) * u⌋ < 3 := by
    rw [Int.floor_lt]
    push_cast
    linarith
  have hri : randint 3 u = Int.toNat ⌊(3 : ℚ) * u⌋ := by
    unfold randint
    rw [hcast]
  refine ⟨by simp [epsilon_greedy_policy, hd], ?_,
    fun n2 q2 => by simp [epsilon_greedy_policy, hd], ?_⟩
  · rw [hri]; omega
  · intro k hk
    have heq : epsilon_greedy_policy nOutputs qvals epsilon d u = randint 3 u := by
      simp [epsilon_greedy_policy, hd]
    rw [heq, hri]
    constructor
    · intro hknat
      have hfk : ⌊(3 : ℚ) * u⌋ = (k : ℤ) := by omega
      have hbounds := Int.floor_eq_iff.mp hfk
      obtain ⟨hb1, hb2⟩ := hbounds
      push_cast at hb1 hb2
      constructor <;> linarith
    · rintro ⟨hb1, hb2⟩
      have hfk : ⌊(3 : ℚ) * u⌋ = (k : ℤ) := by
        rw [Int.floor_eq_iff]
        push_cast
        constructor <;> linarith
      omega

theorem epsilon_greedy_explore_witness :
    ((0 : ℚ) < 1 ∧ (0 : ℚ) ≤ 1/2 ∧ (1 : ℚ)/2 < 1) ∧
    (epsilon_greedy_policy 5 [1, 2, 3, 4, 9] 1 0 (1/2) = randint 3 (1/2) ∧
      randint 3 (1/2) < 3 ∧
      (∀ (n2 : Nat) (q2 : List ℚ),
        epsilon_greedy_policy n2 q2 1 0 (1/2) =
          epsilon_greedy_policy 5 [1, 2, 3, 4, 9] 1 0 (1/2)) ∧
      (∀ k : Nat, k < 3 →
        (epsilon_greedy_policy 5 [1, 2, 3, 4, 9] 1 0 (1/2) = k ↔
          (k : ℚ) / 3 ≤ 1/2 ∧ (1 : ℚ)/2 < ((k : ℚ) + 1) / 3))) :=
  ⟨⟨by norm_num, by norm_num, by norm_num⟩,
    epsilon_greedy_explore 5 [1, 2, 3, 4, 9] 1 0 (1/2)
      (by norm_num) (by norm_num) (by norm_num)⟩

/-- Embedding of the slice indices of one epoch of the optimization loop of
`play_n_timesteps` (lines 272-275): `start_ind = epoch * minibatch_size`,
`end_ind = start_ind + minibatch_size`, `ids = np.arange(start_ind, end_ind)`. -/
def epochIds (epoch mbs : Nat) : List Nat :=
  (List.range mbs).map (fun i => epoch * mbs + i)

/-- The sequence of minibatch index-lists consumed by the two nested
optimization loops of `play_n_timesteps` (lines 270-285): for each
`epoch < epochs`, the inner loop `for mb in range(minibatch_size)` invokes
`train_step_ppo` on the slice `ids` — which does not depend on `mb` — once
per inner iteration. -/
def consumedMinibatches (epochs mbs : Nat) : List (List Nat) :=
  (List.range epochs).flatMap
    (fun epoch => (List.range mbs).map (fun _ => epochIds epoch mbs))

/-- All flattened-buffer indices consumed during one update cycle, with
multiplicity, in consumption order. -/
def consumedIndices (epochs mbs : Nat) : List Nat :=
  (consumedMinibatches epochs mbs).flatten

/-- C1 (refutation on the source's schedule): with `epochs = 2`,
`minibatch_size = 2`, `single_batch_ts = 4`, `num_envs = 2` (flattened buffer
of `4 * 2 = 8` samples), the optimization loops consume the slice `[0, 1]`
twice within epoch 0 (the inner loop repeats the same slice
`minibatch_size` times), and flattened index `4 < 8` is never consumed in any
epoch — the slices are not contiguous non-overlapping covers of the buffer
within an epoch, and a minibatch is not consumed exactly once per epoch
slice. -/
theorem minibatch_schedule_bug :
    consumedMinibatches 2 2 = [[0, 1], [0, 1], [2, 3], [2, 3]] ∧
    (consumedIndices 2 2).count 4 = 0 ∧ 4 < 4 * 2 ∧
    (consumedMinibatches 2 2).count (epochIds 0 2) = 2 := by
  decide

/-- Embedding of the rollout buffer `memory.Memory` for one environment
column.  The `memory` module is imported by `agent.py` but is not part of the
repository snapshot; per spec §3 the buffer is a collection of parallel
per-field arrays of fixed capacity, overwritten each cycle by index
assignment (modelled with `List.set`), plus the flattened views `f_*`
produced by `flatten`. -/
structure Memory (Obs Act : Type) where
  obss : List Obs
  actions : List Act
  probs : List ℚ
  rewards : List ℚ
  terminateds : List Bool
  truncateds : List Bool
  values : List ℚ
  advantages : List ℚ
  returns : List ℚ
  fObss : List Obs
  fActions : List Act
  fProbs : List ℚ
  fAdvantages : List ℚ
  fReturns : List ℚ

/-- Modelled from the spec: `memory.Memory.flatten` is not part of the
repository snapshot.  Per spec §4.1 it collapses the [time × environment]
layout into a single ordered sequence preserving per-sample field alignment,
in the order `(t, e) ↦ t * num_envs + e`; for a single environment column
this copies each per-timestep field into its flattened view, touching no
other field. -/
def Memory.flatten (m : Memory Obs Act) : Memory Obs Act :=
  { m with
      fObss := m.obss, fActions := m.actions, fProbs := m.probs,
      fAdvantages := m.advantages, fReturns := m.returns }

/-- One iteration of the rollout loop of `play_n_timesteps` (lines 238-251):
store the current observation at row `t`, query the policy for an action and
its probability, step the environment (the external collaborator
`env : observation → action → (observation, reward, terminated, truncated)`),
store action, probability, reward and the two done flags at row `t`, and
carry the new observation. -/
def rolloutStep (policy : Obs → Act × ℚ) (env : Obs → Act → Obs × ℚ × Bool × Bool)
    (st : Memory Obs Act × Obs) (t : Nat) : Memory Obs Act × Obs :=
  let m := st.1
  let observation := st.2
  let ap := policy observation
  let srtt := env observation ap.1
  ({ m with
      obss := m.obss.set t observation,
      actions := m.actions.set t ap.1,
      probs := m.probs.set t ap.2,
      rewards := m.rewards.set t srtt.2.1,
      terminateds := m.terminateds.set t srtt.2.2.1,
      truncateds := m.truncateds.set t srtt.2.2.2 },
    srtt.1)

/-- The rollout loop `for t in range(single_batch_ts)` of `play_n_timesteps`. -/
def rolloutPhase (policy : Obs → Act × ℚ) (env : Obs → Act → Obs × ℚ × Bool × Bool)
    (T : Nat) (m0 : Memory Obs Act) (obs0 : Obs) : Memory Obs Act × Obs :=
  (List.range T).foldl (rolloutStep policy env) (m0, obs0)

/-- One update cycle of `play_n_timesteps` up to flattening (lines 238-265),
for one environment: the rollout loop, the post-loop write
`m.obss[t] = observation` (line 253) — in which the Python loop variable `t`
is still bound to `single_batch_ts - 1` — the bootstrap value
`next_val = critic(observation)` (line 256), the per-column advantage and
return computations (lines 259-263) reading `m.values`, and `m.flatten()`
(line 265). -/
def updateCycle (policy : Obs → Act × ℚ) (env : Obs → Act → Obs × ℚ × Bool × Bool)
    (value : Obs → ℚ) (gamma lmbda : ℚ) (T : Nat) (m0 : Memory Obs Act) (obs0 : Obs) :
    Memory Obs Act × Obs :=
  let st := rolloutPhase policy env T m0 obs0
  let m1 := st.1
  let observation := st.2
  let m2 := { m1 with obss := m1.obss.set (T - 1) observation }
  let nextVal := value observation
  let rows := List.zip m2.rewards (List.zip m2.values (List.zip m2.terminateds m2.truncateds))
  let m3 := { m2 with advantages := calcAdvList rows gamma lmbda nextVal }
  let retRows := List.zip m3.rewards (List.zip m3.terminateds m3.truncateds)
  let m4 := { m3 with returns := calcReturns retRows gamma }
  (m4.flatten, observation)

theorem rolloutPhase_values (policy : Obs → Act × ℚ)
    (env : Obs → Act → Obs × ℚ × Bool × Bool) :
    ∀ (l : List Nat) (st : Memory Obs Act × Obs),
      ((l.foldl (rolloutStep policy env) st).1).values = st.1.values := by
  intro l
  induction l with
  | nil => intro st; rfl
  | cons t rest ih =>
    intro st
    rw [List.foldl_cons, ih]
    rfl

/-- C9: throughout an update cycle of `play_n_timesteps` the buffer's
`values` field is never written: the rollout loop leaves it unchanged, the
whole cycle leaves it unchanged, and the advantage computation reads exactly
the contents `values` held before the rollout. -/
theorem update_cycle_preserves_values (policy : Obs → Act × ℚ)
    (env : Obs → Act → Obs × ℚ × Bool × Bool) (value : Obs → ℚ)
    (gamma lmbda : ℚ) (T : Nat) (m0 : Memory Obs Act) (obs0 : Obs) :
    (rolloutPhase policy env T m0 obs0).1.values = m0.values ∧
    (updateCycle policy env value gamma lmbda T m0 obs0).1.values = m0.values ∧
    (updateCycle policy env value gamma lmbda T m0 obs0).1.advantages =
      calcAdvList
        (List.zip (rolloutPhase policy env T m0 obs0).1.rewards
          (List.zip m0.values
            (List.zip (rolloutPhase policy env T m0 obs0).1.terminateds
              (rolloutPhase policy env T m0 obs0).1.truncateds)))
        gamma lmbda (value (rolloutPhase policy env T m0 obs0).2) := by
  have hroll : (rolloutPhase policy env T m0 obs0).1.values = m0.values :=
    rolloutPhase_values policy env (List.range T) (m0, obs0)
  refine ⟨hroll, ?_, ?_⟩
  · show (rolloutPhase policy env T m0 obs0).1.values = m0.values
    exact hroll
  · show calcAdvList
        (List.zip (rolloutPhase policy env T m0 obs0).1.rewards
          (List.zip (rolloutPhase policy env T m0 obs0).1.values _)) _ _ _ = _
    rw [hroll]

/-- A concrete initial buffer for two timesteps of one environment, with
sentinel contents. -/
def m0c : Memory Nat Nat where
  obss := [9, 9]
  actions := [9, 9]
  probs := [0, 0]
  rewards := [0, 0]
  terminateds := [false, false]
  truncateds := [false, false]
  values := [0, 0]
  advantages := [0, 0]
  returns := [0, 0]
  fObss := []
  fActions := []
  fProbs := []
  fAdvantages := []
  fReturns := []

/-- C2 (refutation at a concrete input): run one update cycle with
`single_batch_ts = 2`, one environment, initial observation `0`, the
environment `env o a = (o + 1, 0, false, false)` (observations 0, 1, 2), and
the tracking policy `policy o = (o, 1)` so that each stored action equals the
observation it was produced from.  After flattening, the action at flattened
index 1 is `1` (produced on observation `1`), but the observation stored at
flattened index 1 is `2`: the post-loop write `m.obss[t] = observation`
reuses `t = single_batch_ts - 1` and overwrites the last timestep's
observation with the post-rollout observation, so temporal pairing fails at
the last timestep. -/
theorem rollout_last_obs_overwritten :
    ((updateCycle (fun o : Nat => (o, (1 : ℚ)))
        (fun o _ => (o + 1, (0 : ℚ), false, false))
        (fun _ => 0) 1 1 2 m0c 0).1.fActions.getD 1 0 = 1 ∧
     (updateCycle (fun o : Nat => (o, (1 : ℚ)))
        (fun o _ => (o + 1, (0 : ℚ), false, false))
        (fun _ => 0) 1 1 2 m0c 0).1.fObss.getD 1 0 = 2 ∧
     (2 : Nat) ≠ 1) := by
  refine ⟨rfl, rfl, by decide⟩

/-- Parameter-and-optimizer state owned by `PPO_Agent`: the actor's and the
critic's trainable variables, the two independent optimizer states built over
them (lines 133-134 of `agent.py`), and every other mutable attribute of the
agent (`extra`), carried to express the frame property. -/
structure TrainState (P S E : Type) where
  actorVars : P
  criticVars : P
  optActor : S
  optCritic : S
  extra : E

/-- Embedding of `PPO_Agent.train_step_ppo` (lines 194-223) as a state
transformer.  The opaque differentiable collaborators are explicit
parameters: `actorForward p` is the new-policy probability vector of the
stored actions under actor parameters `p` (the `get_action(obs, actions)`
forward pass), `criticForward p` the predicted values under critic
parameters `p`, `gradient f p` is `tape.gradient` of the scalar function `f`
at `p`, and `applyGradients s g p` the optimizer update, returning the new
optimizer state and parameters.  The step computes the two losses of lines
205-213 at the current parameters, takes the policy-loss gradient with
respect to the actor variables and the value-loss gradient with respect to
the critic variables, applies each through its own optimizer, and returns
the two scalar losses. -/
def train_step_ppo (actorForward criticForward : P → List ℚ)
    (gradient : (P → ℚ) → P → G) (applyGradients : S → G → P → S × P)
    (probs adv returns : List ℚ) (eps : ℚ) (s : TrainState P S E) :
    TrainState P S E × (ℚ × ℚ) :=
  let lossClipAt : P → ℚ := fun p => trainLossClip (actorForward p) probs adv eps
  let lossValueAt : P → ℚ := fun p => trainLossValue returns (criticForward p)
  let gradsActor := gradient lossClipAt s.actorVars
  let gradsCritic := gradient lossValueAt s.criticVars
  let ua := applyGradients s.optActor gradsActor s.actorVars
  let uc := applyGradients s.optCritic gradsCritic s.criticVars
  (⟨ua.2, uc.2, ua.1, uc.1, s.extra⟩,
    (lossClipAt s.actorVars, lossValueAt s.criticVars))

/-- C7: in every invocation of the update step, (i) the actor parameters and
actor optimizer state are exactly the result of applying, through the actor's
own optimizer, the gradient of the clipped-surrogate policy loss at the
current actor parameters, and they do not depend on the critic forward pass
or the stored returns; (ii) the critic parameters and critic optimizer state
are exactly the result of applying, through the separate critic optimizer,
the gradient of the value loss at the current critic parameters, and they do
not depend on the actor forward pass, advantages, old probabilities or clip
parameter; (iii) every agent attribute outside the two parameter sets and the
two optimizer states is unchanged; (iv) the step returns the two scalar loss
values evaluated at the incoming parameters. -/
theorem train_step_frame (actorForward criticForward : P → List ℚ)
    (gradient : (P → ℚ) → P → G) (applyGradients : S → G → P → S × P)
    (probs adv returns : List ℚ) (eps : ℚ) (s : TrainState P S E) :
    ((train_step_ppo actorForward criticForward gradient applyGradients
        probs adv returns eps s).1.actorVars =
      (applyGradients s.optActor
        (gradient (fun p => trainLossClip (actorForward p) probs adv eps) s.actorVars)
        s.actorVars).2 ∧
     (train_step_ppo actorForward criticForward gradient applyGradients
        probs adv returns eps s).1.optActor =
      (applyGradients s.optActor
        (gradient (fun p => trainLossClip (actorForward p) probs adv eps) s.actorVars)
        s.actorVars).1) ∧
    ((train_step_ppo actorForward criticForward gradient applyGradients
        probs adv returns eps s).1.criticVars =
      (applyGradients s.optCritic
        (gradient (fun p => trainLossValue returns (criticForward p)) s.criticVars)
        s.criticVars).2 ∧
     (train_step_ppo actorForward criticForward gradient applyGradients
        probs adv returns eps s).1.optCritic =
      (applyGradients s.optCritic
        (gradient (fun p => trainLossValue returns (criticForward p)) s.criticVars)
        s.criticVars).1) ∧
    (∀ (cf2 : P → List ℚ) (returns2 : List ℚ),
      (train_step_ppo actorForward cf2 gradient applyGradients
          probs adv returns2 eps s).1.actorVars =
        (train_step_ppo actorForward criticForward gradient applyGradients
          probs adv returns eps s).1.actorVars ∧
      (train_step_ppo actorForward cf2 gradient applyGradients
          probs adv returns2 eps s).1.optActor =
        (train_step_ppo actorForward criticForward gradient applyGradients
          probs adv returns eps s).1.optActor) ∧
    (∀ (af2 : P → List ℚ) (probs2 adv2 : List ℚ) (eps2 : ℚ),
      (train_step_ppo af2 criticForward gradient applyGradients
          probs2 adv2 returns eps2 s).1.criticVars =
        (train_step_ppo actorForward criticForward gradient applyGradients
          probs adv returns eps s).1.criticVars ∧
      (train_step_ppo af2 criticForward gradient applyGradients
          probs2 adv2 returns eps2 s).1.optCritic =
        (train_step_ppo actorForward criticForward gradient applyGradients
          probs adv returns eps s).1.optCritic) ∧
    (train_step_ppo actorForward criticForward gradient applyGradients
        probs adv returns eps s).1.extra = s.extra ∧
    (train_step_ppo actorForward criticForward gradient applyGradients
        probs adv returns eps s).2 =
      (trainLossClip (actorForward s.actorVars) probs adv eps,
       trainLossValue returns (criticForward s.criticVars)) :=
  ⟨⟨rfl, rfl⟩, ⟨rfl, rfl⟩, fun _ _ => ⟨rfl, rfl⟩, fun _ _ _ _ => ⟨rfl, rfl⟩, rfl, rfl⟩

end Agent
